import Mathlib

/-!
Shallow embedding of the real-time room messaging subsystem of the
edusphere-backend repository.

The embedded code:
* `RoomsService.findOne` (src/rooms/rooms.service.ts): room lookup with
  id validation and soft-delete filtering; throws `NotFoundException`
  (modelled as `Except.error`) when the room is missing or soft-deleted.
* `RoomsGatewayGateway` (src/rooms-gateway/rooms-gateway.gateway.ts):
  the socket.io gateway.  Its state is the socket.io room membership
  relation (mutated by `client.join` / `client.leave` and by the
  transport on disconnect) together with the `connectedUsers` map
  (client id to `{ userId, username, roomId? }`).
  Each handler is a pure function from state and inputs to the new
  state plus the list of emitted events.  The persistence call
  `createMessage` is an external collaborator (the Persistence
  Gateway); its outcome is passed to `handleSendMessage` as an
  `Except` value, exactly the way the handler consumes the awaited
  promise.
-/

abbrev ConnId := String
abbrev RoomId := String

/-- A persisted room row, as selected by `RoomsService.findOne`:
id, name, description, creator snippet, the `_count` aggregates and the
soft-delete marker `deletedAt` (a `Date` is always truthy, so only
`isSome` matters). -/
structure Room where
  id : String
  name : String
  description : String
  creator : String
  countUsers : Nat
  countMessages : Nat
  deletedAt : Option Nat
deriving DecidableEq, Repr

/-- A persisted message as returned by the persistence gateway's
`createMessage`: id, author/room, content, the included author snippet
and the creation timestamp. -/
structure Message where
  id : Nat
  userId : String
  roomId : String
  content : String
  user : String
  createdAt : Nat
deriving DecidableEq, Repr

/-- One entry of the gateway's `connectedUsers` map:
`{ userId, username, roomId? }`. -/
structure UserInfo where
  userId : String
  username : String
  roomId : Option RoomId
deriving DecidableEq, Repr

/-- Gateway state: the socket.io room membership relation (a set of
(room, connection) pairs) and the `connectedUsers` map, kept as an
association list with JS `Map` semantics. -/
structure GwState where
  socketRooms : List (RoomId × ConnId)
  connectedUsers : List (ConnId × UserInfo)
deriving DecidableEq, Repr

def GwState.init : GwState := ⟨[], []⟩

/-- `Map.get`: first binding of the key, if any. -/
def mapGet (m : List (ConnId × UserInfo)) (k : ConnId) : Option UserInfo :=
  (m.find? (fun p => p.1 = k)).map (fun p => p.2)

/-- `Map.set`: overwrite the binding when the key is present, append
otherwise. -/
def mapSet (m : List (ConnId × UserInfo)) (k : ConnId) (v : UserInfo) :
    List (ConnId × UserInfo) :=
  if (m.find? (fun p => p.1 = k)).isSome then
    m.map (fun p => if p.1 = k then (k, v) else p)
  else
    m ++ [(k, v)]

/-- `Map.delete`. -/
def mapDelete (m : List (ConnId × UserInfo)) (k : ConnId) :
    List (ConnId × UserInfo) :=
  m.filter (fun p => ¬ p.1 = k)

/-- socket.io `client.join(room)`: adds the (room, connection) pair
(idempotent at the transport level). -/
def socketJoin (s : List (RoomId × ConnId)) (r : RoomId) (c : ConnId) :
    List (RoomId × ConnId) :=
  if (r, c) ∈ s then s else s ++ [(r, c)]

/-- socket.io `client.leave(room)`: removes the (room, connection)
pair; a no-op when the socket is not in the room. -/
def socketLeave (s : List (RoomId × ConnId)) (r : RoomId) (c : ConnId) :
    List (RoomId × ConnId) :=
  s.filter (fun p => ¬ (p.1 = r ∧ p.2 = c))

/-- socket.io transport behaviour on disconnect: the socket leaves
every room before the `disconnect` handler runs. -/
def socketLeaveAll (s : List (RoomId × ConnId)) (c : ConnId) :
    List (RoomId × ConnId) :=
  s.filter (fun p => ¬ p.2 = c)

/-- The members of a room: connections the transport lists for it. -/
def members (s : List (RoomId × ConnId)) (r : RoomId) : List ConnId :=
  (s.filter (fun p => p.1 = r)).map (fun p => p.2)

/-- Emission target of one `emit` call in the gateway. -/
inductive Target where
  /-- `client.emit(...)`: the one connection. -/
  | toClient (c : ConnId)
  /-- `server.to(room).emit(...)`: every member of the room. -/
  | toRoom (r : RoomId)
  /-- `client.broadcast.to(room).emit(...)`: every member except the
  sender. -/
  | broadcastToRoom (sender : ConnId) (r : RoomId)
deriving DecidableEq, Repr

/-- Event payloads emitted by the gateway, field for field. -/
inductive Payload where
  | errorMsg (message : String)
  | joinedRoom (room_id user_id message : String)
  | userJoined (user_id username message : String)
  | leftRoom (room_id user_id message : String)
  | userLeft (user_id username : String) (message : Option String)
  | newMessage (id : Nat) (room_id user_id content user : String) (sent_at : Nat)
  | roomInfo (id name description creator : String) (userCount messageCount : Nat)
deriving DecidableEq, Repr

/-- One `emit` call: target, event name, payload. -/
structure Emit where
  target : Target
  event : String
  payload : Payload
deriving DecidableEq, Repr

/-- JS `String.prototype.trim` as the source uses it: strip leading
and trailing whitespace. -/
def strTrim (s : String) : String :=
  String.mk (((s.data.dropWhile Char.isWhitespace).reverse.dropWhile
    Char.isWhitespace).reverse)

/-- `RoomsService.findOne`: rejects a blank id, looks the room up by
the trimmed id, and throws (`Except.error`) when the row is absent or
soft-deleted; otherwise returns the row it looked up (still an
`Option` at the call site, which is what the gateway's truthiness
guard inspects). -/
def findOne (db : List Room) (id : String) : Except Unit (Option Room) :=
  if id = "" ∨ (strTrim id).length = 0 then Except.error ()
  else
    let room := db.find? (fun r => r.id = strTrim id)
    if room.isNone ∨ (room.bind Room.deletedAt).isSome then Except.error ()
    else Except.ok room

/-- `handleConnection`: only logs; touches no state and emits
nothing. -/
def handleConnection (st : GwState) (_c : ConnId) : GwState × List Emit :=
  (st, [])

/-- `handleJoinRoom`: verifies the room via `findOne` (a throw lands
in the catch branch, emitting `error` "Failed to join room"); the dead
truthiness guard emits "Room not found"; on success the socket joins
the room, `connectedUsers` records the session with the derived
`User_<id>` username, and the gateway emits `joined-room` to the
requester then `user-joined` to the rest of the room. -/
def handleJoinRoom (db : List Room) (st : GwState) (c : ConnId)
    (room_id user_id : String) : GwState × List Emit :=
  match findOne db room_id with
  | Except.error _ =>
      (st, [⟨Target.toClient c, "error", Payload.errorMsg "Failed to join room"⟩])
  | Except.ok room =>
      match room with
      | none =>
          (st, [⟨Target.toClient c, "error", Payload.errorMsg "Room not found"⟩])
      | some r =>
          (⟨socketJoin st.socketRooms room_id c,
            mapSet st.connectedUsers c
              ⟨user_id, "User_" ++ user_id, some room_id⟩⟩,
           [⟨Target.toClient c, "joined-room",
              Payload.joinedRoom room_id user_id
                ("Successfully joined room: " ++ r.name)⟩,
            ⟨Target.broadcastToRoom c room_id, "user-joined",
              Payload.userJoined user_id ("User_" ++ user_id)
                ("User " ++ user_id ++ " joined the room")⟩])

/-- `handleLeaveRoom`: the socket leaves the room, the session's
`roomId` is cleared when the map has an entry, and the gateway emits
`left-room` to the requester then broadcasts `user-left` to the room,
unconditionally. -/
def handleLeaveRoom (st : GwState) (c : ConnId)
    (room_id user_id : String) : GwState × List Emit :=
  let sr := socketLeave st.socketRooms room_id c
  let cu := match mapGet st.connectedUsers c with
    | some ui => mapSet st.connectedUsers c ⟨ui.userId, ui.username, none⟩
    | none => st.connectedUsers
  (⟨sr, cu⟩,
   [⟨Target.toClient c, "left-room",
      Payload.leftRoom room_id user_id "Successfully left room"⟩,
    ⟨Target.broadcastToRoom c room_id, "user-left",
      Payload.userLeft user_id ("User_" ++ user_id)
        (some ("User " ++ user_id ++ " left the room"))⟩])

/-- `handleSendMessage`: awaits the persistence gateway's
`createMessage` (outcome passed in as `persist`); on success it
broadcasts `new-message` with the persisted fields to the whole room
via `server.to`, on failure the catch branch emits `error` to the
author only.  No membership or registry check appears anywhere. -/
def handleSendMessage (st : GwState) (c : ConnId)
    (room_id user_id content : String) (persist : Except Unit Message) :
    GwState × List Emit :=
  match persist with
  | Except.ok m =>
      (st, [⟨Target.toRoom room_id, "new-message",
              Payload.newMessage m.id room_id user_id content m.user m.createdAt⟩])
  | Except.error _ =>
      (st, [⟨Target.toClient c, "error", Payload.errorMsg "Failed to send message"⟩])

/-- `handleGetRoomInfo`: looks the room up via `findOne` (a throw
lands in the catch branch, emitting "Failed to get room info"); the
dead truthiness guard emits "Room not found"; on success it emits
`room-info` with the persisted metadata and `_count` aggregates. -/
def handleGetRoomInfo (db : List Room) (st : GwState) (c : ConnId)
    (room_id : String) : GwState × List Emit :=
  match findOne db room_id with
  | Except.error _ =>
      (st, [⟨Target.toClient c, "error", Payload.errorMsg "Failed to get room info"⟩])
  | Except.ok room =>
      match room with
      | none =>
          (st, [⟨Target.toClient c, "error", Payload.errorMsg "Room not found"⟩])
      | some r =>
          (st, [⟨Target.toClient c, "room-info",
                  Payload.roomInfo r.id r.name r.description r.creator
                    r.countUsers r.countMessages⟩])

/-- `handleDisconnect`: reads the session, broadcasts `user-left` to
the recorded room when one is set, and deletes the map entry.  It
never contacts the disconnected client. -/
def handleDisconnect (st : GwState) (c : ConnId) : GwState × List Emit :=
  let emits := match mapGet st.connectedUsers c with
    | some ui =>
        match ui.roomId with
        | some r =>
            [⟨Target.broadcastToRoom c r, "user-left",
               Payload.userLeft ui.userId ui.username none⟩]
        | none => []
    | none => []
  (⟨st.socketRooms, mapDelete st.connectedUsers c⟩, emits)

/-- A full disconnect: the transport first removes the socket from
every room, then the `disconnect` handler runs. -/
def disconnect (st : GwState) (c : ConnId) : GwState × List Emit :=
  handleDisconnect ⟨socketLeaveAll st.socketRooms c, st.connectedUsers⟩ c

/-- The connections an emit call reaches, resolved against the state
in effect when the call runs (each handler mutates before it emits). -/
def recipients (st : GwState) (t : Target) : List ConnId :=
  match t with
  | Target.toClient c => [c]
  | Target.toRoom r => members st.socketRooms r
  | Target.broadcastToRoom sender r =>
      (members st.socketRooms r).filter (fun c => ¬ c = sender)

/-- One delivered event: who received it, the event name, the
payload. -/
structure Delivered where
  recips : List ConnId
  event : String
  payload : Payload
deriving DecidableEq, Repr

def deliverAll (st : GwState) (es : List Emit) : List Delivered :=
  es.map (fun e => ⟨recipients st e.target, e.event, e.payload⟩)

/-- The membership-mutating wire operations of the gateway. -/
inductive Op where
  | join (c : ConnId) (room_id user_id : String)
  | leave (c : ConnId) (room_id user_id : String)
  | disc (c : ConnId)
deriving DecidableEq, Repr

def applyOp (db : List Room) (st : GwState) : Op → GwState × List Emit
  | Op.join c r u => handleJoinRoom db st c r u
  | Op.leave c r u => handleLeaveRoom st c r u
  | Op.disc c => disconnect st c

/-- Final state after an interleaving of join/leave/disconnect
operations. -/
def runOps (db : List Room) (st : GwState) : List Op → GwState
  | [] => st
  | o :: os => runOps db (applyOp db st o).1 os

/-- Delivered-event trace of an interleaving, each emit resolved in
the state the handler left behind. -/
def runDeliv (db : List Room) (st : GwState) : List Op → List Delivered
  | [] => []
  | o :: os =>
      deliverAll (applyOp db st o).1 (applyOp db st o).2 ++
        runDeliv db (applyOp db st o).1 os

/-- The room a connection's registered session records, if any. -/
def registryRoom (st : GwState) (c : ConnId) : Option RoomId :=
  (mapGet st.connectedUsers c).bind (fun ui => ui.roomId)

/-!
Interleaving model of concurrent `handleSendMessage` calls against one
room.  Each call is the two-phase async body of the handler: first the
awaited `createMessage` resolves (the durable store accepts the
message), then the handler resumes and emits `new-message`.  The Node
event loop may resume any other pending handler between the two
phases, so a run is an arbitrary interleaving of the phases subject
only to each call's program order.
-/

/-- Progress of one in-flight `handleSendMessage` call. -/
inductive SendPhase where
  | idle
  | persisted
  | emitted
deriving DecidableEq, Repr

/-- State of a set of concurrent send-message calls to one room:
the order in which the durable store accepted the messages, the order
in which `new-message` was emitted to the room (every member observes
the emits in exactly this order), and each call's progress. -/
structure SendRun where
  dbOrder : List Nat
  emitOrder : List Nat
  phase : List SendPhase
deriving DecidableEq, Repr

/-- A scheduler step: resume call `i` at its next suspension point. -/
inductive SendStep where
  | persistStep (i : Nat)
  | emitStep (i : Nat)
deriving DecidableEq, Repr

/-- Small-step semantics of the handler bodies: call `i` may persist
only from `idle` (the `await this.roomService.createMessage` line) and
may emit only after it persisted (the `server.to(room).emit` line). -/
def stepSend (s : SendRun) : SendStep → Option SendRun
  | SendStep.persistStep i =>
      match s.phase[i]? with
      | some SendPhase.idle =>
          some ⟨s.dbOrder ++ [i], s.emitOrder, s.phase.set i SendPhase.persisted⟩
      | _ => none
  | SendStep.emitStep i =>
      match s.phase[i]? with
      | some SendPhase.persisted =>
          some ⟨s.dbOrder, s.emitOrder ++ [i], s.phase.set i SendPhase.emitted⟩
      | _ => none

/-- Run a schedule; `none` when a step is not enabled. -/
def runSend (s : SendRun) : List SendStep → Option SendRun
  | [] => some s
  | t :: ts => (stepSend s t).bind (fun s1 => runSend s1 ts)

/-- `n` send-message calls, none started. -/
def initSend (n : Nat) : SendRun :=
  ⟨[], [], List.replicate n SendPhase.idle⟩

/-- The schedule in which the calls listed in `l` run to completion
one after the other (no interleaving). -/
def serialSched (l : List Nat) : List SendStep :=
  (l.map (fun i => [SendStep.persistStep i, SendStep.emitStep i])).flatten

/-! Helper lemmas about the map and membership primitives. -/

theorem mapGet_cons_eq {p : ConnId × UserInfo} {t : List (ConnId × UserInfo)}
    {k : ConnId} (h : p.1 = k) : mapGet (p :: t) k = some p.2 := by
  simp [mapGet, List.find?_cons_of_pos, h]

theorem mapGet_cons_ne {p : ConnId × UserInfo} {t : List (ConnId × UserInfo)}
    {k : ConnId} (h : ¬ p.1 = k) : mapGet (p :: t) k = mapGet t k := by
  simp only [mapGet]
  rw [List.find?_cons_of_neg]
  simp [h]

theorem mapGet_map_replace_self (m : List (ConnId × UserInfo)) (k : ConnId)
    (v : UserInfo) (h : ∃ p, p ∈ m ∧ p.1 = k) :
    mapGet (m.map (fun p => if p.1 = k then (k, v) else p)) k = some v := by
  induction m with
  | nil => simp at h
  | cons p t ih =>
    by_cases hp : p.1 = k
    · simp only [List.map_cons, if_pos hp]
      exact mapGet_cons_eq rfl
    · obtain ⟨q, hq, hqk⟩ := h
      rcases List.mem_cons.mp hq with hh | hqt
      · rw [hh] at hqk; exact absurd hqk hp
      · simp only [List.map_cons, if_neg hp]
        rw [mapGet_cons_ne hp]
        exact ih ⟨q, hqt, hqk⟩

theorem mapGet_map_replace_ne (m : List (ConnId × UserInfo)) (k k1 : ConnId)
    (v : UserInfo) (hne : ¬ k1 = k) :
    mapGet (m.map (fun p => if p.1 = k then (k, v) else p)) k1 = mapGet m k1 := by
  induction m with
  | nil => rfl
  | cons p t ih =>
    by_cases hp : p.1 = k
    · simp only [List.map_cons, if_pos hp]
      rw [mapGet_cons_ne (p := (k, v)) (fun hh => hne hh.symm),
          mapGet_cons_ne (fun hh : p.1 = k1 => hne (hp ▸ hh).symm)]
      exact ih
    · simp only [List.map_cons, if_neg hp]
      by_cases h1 : p.1 = k1
      · rw [mapGet_cons_eq h1, mapGet_cons_eq h1]
      · rw [mapGet_cons_ne h1, mapGet_cons_ne h1]
        exact ih

theorem mapGet_mapSet_self (m : List (ConnId × UserInfo)) (k : ConnId)
    (v : UserInfo) : mapGet (mapSet m k v) k = some v := by
  unfold mapSet
  by_cases h : (m.find? (fun p => p.1 = k)).isSome
  · rw [if_pos h]
    refine mapGet_map_replace_self m k v ?_
    rw [List.find?_isSome] at h
    obtain ⟨p, hp, hpk⟩ := h
    exact ⟨p, hp, by simpa using hpk⟩
  · rw [if_neg h]
    have hn : m.find? (fun p => decide (p.1 = k)) = none := by
      cases hf : m.find? (fun p => decide (p.1 = k)) with
      | none => rfl
      | some x => rw [hf] at h; simp at h
    simp only [mapGet, List.find?_append, hn, Option.none_or]
    rw [List.find?_cons_of_pos]
    · rfl
    · simp

theorem mapGet_mapSet_ne (m : List (ConnId × UserInfo)) (k k1 : ConnId)
    (v : UserInfo) (hne : ¬ k1 = k) :
    mapGet (mapSet m k v) k1 = mapGet m k1 := by
  unfold mapSet
  by_cases h : (m.find? (fun p => p.1 = k)).isSome
  · rw [if_pos h]
    exact mapGet_map_replace_ne m k k1 v hne
  · rw [if_neg h]
    simp only [mapGet, List.find?_append]
    rw [List.find?_cons_of_neg]
    · simp
    · simp only [decide_eq_true_eq]
      exact fun hh => hne hh.symm

theorem mapDelete_cons (p : ConnId × UserInfo) (t : List (ConnId × UserInfo))
    (k : ConnId) :
    mapDelete (p :: t) k =
      if p.1 = k then mapDelete t k else p :: mapDelete t k := by
  unfold mapDelete
  rw [List.filter_cons]
  by_cases h : p.1 = k
  · simp [h]
  · simp [h]

theorem mapGet_mapDelete_self (m : List (ConnId × UserInfo)) (k : ConnId) :
    mapGet (mapDelete m k) k = none := by
  induction m with
  | nil => rfl
  | cons p t ih =>
    rw [mapDelete_cons]
    by_cases h : p.1 = k
    · rw [if_pos h]; exact ih
    · rw [if_neg h, mapGet_cons_ne h]; exact ih

theorem mapGet_mapDelete_ne (m : List (ConnId × UserInfo)) (k k1 : ConnId)
    (hne : ¬ k1 = k) : mapGet (mapDelete m k) k1 = mapGet m k1 := by
  induction m with
  | nil => rfl
  | cons p t ih =>
    rw [mapDelete_cons]
    by_cases h : p.1 = k
    · have h1 : ¬ p.1 = k1 := by rw [h]; exact fun hh => hne hh.symm
      rw [if_pos h, mapGet_cons_ne h1]; exact ih
    · rw [if_neg h]
      by_cases h1 : p.1 = k1
      · rw [mapGet_cons_eq h1, mapGet_cons_eq h1]
      · rw [mapGet_cons_ne h1, mapGet_cons_ne h1]; exact ih

theorem mem_members {s : List (RoomId × ConnId)} {r : RoomId} {c : ConnId} :
    c ∈ members s r ↔ (r, c) ∈ s := by
  simp only [members, List.mem_map, List.mem_filter, decide_eq_true_eq]
  constructor
  · rintro ⟨⟨r1, c1⟩, ⟨hmem, hr⟩, hc⟩
    simp only at hr hc
    rw [hr, hc] at hmem
    exact hmem
  · intro h
    exact ⟨(r, c), ⟨h, rfl⟩, rfl⟩

theorem mem_members_socketJoin {s : List (RoomId × ConnId)}
    {r r1 : RoomId} {c c1 : ConnId} :
    c1 ∈ members (socketJoin s r c) r1 ↔
      (c1 ∈ members s r1 ∨ (r1 = r ∧ c1 = c)) := by
  unfold socketJoin
  by_cases h : (r, c) ∈ s
  · simp only [h, if_pos]
    constructor
    · intro hm; exact Or.inl hm
    · rintro (hm | ⟨hr, hc⟩)
      · exact hm
      · rw [hr, hc, mem_members]; exact h
  · rw [if_neg h]
    rw [mem_members, mem_members, List.mem_append]
    simp

theorem mem_members_socketLeave {s : List (RoomId × ConnId)}
    {r r1 : RoomId} {c c1 : ConnId} :
    c1 ∈ members (socketLeave s r c) r1 ↔
      (c1 ∈ members s r1 ∧ ¬ (r1 = r ∧ c1 = c)) := by
  rw [mem_members, mem_members]
  unfold socketLeave
  rw [List.mem_filter]
  simp only [decide_eq_true_eq]

theorem mem_members_socketLeaveAll {s : List (RoomId × ConnId)}
    {r1 : RoomId} {c c1 : ConnId} :
    c1 ∈ members (socketLeaveAll s c) r1 ↔
      (c1 ∈ members s r1 ∧ ¬ c1 = c) := by
  rw [mem_members, mem_members]
  unfold socketLeaveAll
  rw [List.mem_filter]
  simp only [decide_eq_true_eq]

/-! Lemmas about `findOne`. -/

theorem findOne_error_of_notFound (db : List Room) (id : String)
    (h : ∀ r, r ∈ db → r.id = strTrim id → r.deletedAt.isSome) :
    findOne db id = Except.error () := by
  unfold findOne
  by_cases h0 : id = "" ∨ (strTrim id).length = 0
  · rw [if_pos h0]
  · rw [if_neg h0]
    cases hf : db.find? (fun r => r.id = strTrim id) with
    | none => simp [hf]
    | some r =>
      have hr : r ∈ db := List.mem_of_find?_eq_some hf
      have hrid : r.id = strTrim id := by simpa using List.find?_some hf
      have hd := h r hr hrid
      simp [hf, hd]

theorem findOne_ok_isSome (db : List Room) (id : String) (o : Option Room)
    (h : findOne db id = Except.ok o) : o.isSome := by
  simp only [findOne] at h
  split at h
  · simp at h
  · split at h
    · simp at h
    · rename_i hcond
      rw [Except.ok.injEq] at h
      rw [← h]
      rcases hnn : db.find? (fun r => r.id = strTrim id) with _ | r
      · rw [hnn] at hcond
        simp at hcond
      · rw [hnn]; rfl

/-- C4: when a join-room request names a room that does not exist or is
soft-deleted, the requesting connection alone receives an error event
(the catch branch's "Failed to join room"), no session or membership
state is mutated, and nothing is broadcast to any room. -/
theorem joinRoom_notFound_error_only (db : List Room) (st : GwState)
    (c : ConnId) (room_id user_id : String)
    (h : ∀ r, r ∈ db → r.id = strTrim room_id → r.deletedAt.isSome) :
    handleJoinRoom db st c room_id user_id =
      (st, [⟨Target.toClient c, "error",
        Payload.errorMsg "Failed to join room"⟩]) ∧
    recipients st (Target.toClient c) = [c] := by
  unfold handleJoinRoom
  rw [findOne_error_of_notFound db room_id h]
  exact ⟨rfl, rfl⟩

theorem joinRoom_notFound_error_only_witness :
    handleJoinRoom [⟨"A", "Alg", "d", "u0", 2, 5, some 1⟩] GwState.init
        "c1" "A" "u1" =
      (GwState.init, [⟨Target.toClient "c1", "error",
        Payload.errorMsg "Failed to join room"⟩]) ∧
    recipients GwState.init (Target.toClient "c1") = ["c1"] := by
  refine joinRoom_notFound_error_only _ GwState.init "c1" "A" "u1" ?_
  intro r hr hid
  rcases List.mem_singleton.mp hr with rfl
  rfl

/-- C9: the "Room not found" truthiness guard in `handleJoinRoom` and
`handleGetRoomInfo` is unreachable, because `findOne` never resolves
with a null room: it throws instead, so every not-found case lands in
the catch branch and the requester receives "Failed to join room"
resp. "Failed to get room info". -/
theorem roomNotFound_guard_unreachable (db : List Room) (st : GwState)
    (c : ConnId) (room_id user_id : String) :
    (∀ o, findOne db room_id = Except.ok o → o.isSome) ∧
    (∀ e, e ∈ (handleJoinRoom db st c room_id user_id).2 →
      ¬ e.payload = Payload.errorMsg "Room not found") ∧
    (∀ e, e ∈ (handleGetRoomInfo db st c room_id).2 →
      ¬ e.payload = Payload.errorMsg "Room not found") ∧
    (findOne db room_id = Except.error () →
      (handleJoinRoom db st c room_id user_id).2 =
        [⟨Target.toClient c, "error",
          Payload.errorMsg "Failed to join room"⟩] ∧
      (handleGetRoomInfo db st c room_id).2 =
        [⟨Target.toClient c, "error",
          Payload.errorMsg "Failed to get room info"⟩]) := by
  refine ⟨fun o h => findOne_ok_isSome db room_id o h, ?_, ?_, ?_⟩
  · intro e he
    unfold handleJoinRoom at he
    cases hf : findOne db room_id with
    | error u =>
      rw [hf] at he
      simp only [List.mem_singleton] at he
      rw [he]
      simp
    | ok o =>
      have hs := findOne_ok_isSome db room_id o hf
      cases o with
      | none => simp at hs
      | some r =>
        rw [hf] at he
        simp only [List.mem_cons, List.mem_singleton] at he
        rcases he with he | he | he
        · rw [he]; simp
        · rw [he]; simp
        · simp at he
  · intro e he
    unfold handleGetRoomInfo at he
    cases hf : findOne db room_id with
    | error u =>
      rw [hf] at he
      simp only [List.mem_singleton] at he
      rw [he]
      simp
    | ok o =>
      have hs := findOne_ok_isSome db room_id o hf
      cases o with
      | none => simp at hs
      | some r =>
        rw [hf] at he
        simp only [List.mem_singleton] at he
        rw [he]
        simp
  · intro hf
    unfold handleJoinRoom handleGetRoomInfo
    rw [hf]
    exact ⟨rfl, rfl⟩

theorem roomNotFound_guard_unreachable_witness :
    (handleJoinRoom [] GwState.init "c1" "A" "u1").2 =
      [⟨Target.toClient "c1", "error",
        Payload.errorMsg "Failed to join room"⟩] ∧
    (handleGetRoomInfo [] GwState.init "c1" "A").2 =
      [⟨Target.toClient "c1", "error",
        Payload.errorMsg "Failed to get room info"⟩] :=
  (roomNotFound_guard_unreachable [] GwState.init "c1" "A" "u1").2.2.2 (by rfl)

/-- C2: a `new-message` event is emitted for a send-message call iff
the persistence gateway's `createMessage` succeeded; on success the
single broadcast targets the whole current membership of the room (the
author is not excluded), and on failure the author alone receives one
`error` event and no `new-message` is emitted. -/
theorem sendMessage_broadcast_iff_persisted (st : GwState) (c : ConnId)
    (room_id user_id content : String) (persist : Except Unit Message) :
    ((∃ e, e ∈ (handleSendMessage st c room_id user_id content persist).2 ∧
        e.event = "new-message") ↔ ∃ m, persist = Except.ok m) ∧
    (∀ m, persist = Except.ok m →
      handleSendMessage st c room_id user_id content persist =
        (st, [⟨Target.toRoom room_id, "new-message",
          Payload.newMessage m.id room_id user_id content m.user m.createdAt⟩]) ∧
      recipients st (Target.toRoom room_id) = members st.socketRooms room_id) ∧
    (∀ u, persist = Except.error u →
      handleSendMessage st c room_id user_id content persist =
        (st, [⟨Target.toClient c, "error",
          Payload.errorMsg "Failed to send message"⟩]) ∧
      recipients st (Target.toClient c) = [c]) := by
  cases persist with
  | ok m =>
    refine ⟨?_, ?_, ?_⟩
    · constructor
      · intro _; exact ⟨m, rfl⟩
      · intro _
        exact ⟨⟨Target.toRoom room_id, "new-message",
          Payload.newMessage m.id room_id user_id content m.user m.createdAt⟩,
          List.mem_singleton.mpr rfl, rfl⟩
    · intro m1 hm1
      rw [Except.ok.injEq] at hm1
      rw [← hm1]
      exact ⟨rfl, rfl⟩
    · intro u hu; simp at hu
  | error u =>
    refine ⟨?_, ?_, ?_⟩
    · constructor
      · rintro ⟨e, he, hev⟩
        simp only [handleSendMessage, List.mem_singleton] at he
        rw [he] at hev
        simp at hev
      · rintro ⟨m, hm⟩; simp at hm
    · intro m hm; simp at hm
    · intro u1 _
      exact ⟨rfl, rfl⟩

theorem sendMessage_broadcast_iff_persisted_witness :
    handleSendMessage ⟨[("A", "a"), ("A", "b")], []⟩ "a" "A" "u" "hi"
        (Except.ok ⟨7, "u", "A", "hi", "alice", 5⟩) =
      (⟨[("A", "a"), ("A", "b")], []⟩,
       [⟨Target.toRoom "A", "new-message",
         Payload.newMessage 7 "A" "u" "hi" "alice" 5⟩]) ∧
    recipients ⟨[("A", "a"), ("A", "b")], []⟩ (Target.toRoom "A") =
      members [("A", "a"), ("A", "b")] "A" :=
  (sendMessage_broadcast_iff_persisted ⟨[("A", "a"), ("A", "b")], []⟩
    "a" "A" "u" "hi" (Except.ok ⟨7, "u", "A", "hi", "alice", 5⟩)).2.1
    ⟨7, "u", "A", "hi", "alice", 5⟩ rfl

/-- C10: `handleSendMessage` performs no membership or registration
check: even for a connection with no registry entry that is a member
of no room, a send-message whose persistence write succeeds produces
the `new-message` broadcast to the named room's members. -/
theorem sendMessage_no_membership_check (st : GwState) (c : ConnId)
    (room_id user_id content : String) (m : Message)
    (hreg : mapGet st.connectedUsers c = none)
    (hmem : ∀ r, ¬ c ∈ members st.socketRooms r) :
    (handleSendMessage st c room_id user_id content (Except.ok m)).2 =
      [⟨Target.toRoom room_id, "new-message",
        Payload.newMessage m.id room_id user_id content m.user m.createdAt⟩] ∧
    recipients st (Target.toRoom room_id) = members st.socketRooms room_id :=
  ⟨rfl, rfl⟩

theorem sendMessage_no_membership_check_witness :
    (handleSendMessage ⟨[("A", "b")], []⟩ "ghost" "A" "u" "hi"
        (Except.ok ⟨3, "u", "A", "hi", "ann", 9⟩)).2 =
      [⟨Target.toRoom "A", "new-message",
        Payload.newMessage 3 "A" "u" "hi" "ann" 9⟩] ∧
    recipients ⟨[("A", "b")], []⟩ (Target.toRoom "A") =
      members [("A", "b")] "A" :=
  sendMessage_no_membership_check ⟨[("A", "b")], []⟩ "ghost" "A" "u" "hi"
    ⟨3, "u", "A", "hi", "ann", 9⟩ (by rfl)
    (by intro r hmem
        rw [mem_members] at hmem
        simp at hmem)

/-- C7 counterexample: `handleConnection` creates no session.  After a
fresh connection "c1" connects on an empty gateway, the registry still
has no entry for it, contradicting "a ConnectionSession with no room
set is created at connect time". -/
theorem no_session_created_at_connect :
    handleConnection GwState.init "c1" = (GwState.init, []) ∧
    mapGet (handleConnection GwState.init "c1").1.connectedUsers "c1" = none :=
  ⟨rfl, rfl⟩

/-- C7 amended: `handleConnection` only logs and leaves the registry
untouched; a session is first created (or overwritten) by a successful
join, already carrying the joined room; the entry is destroyed on
disconnect. -/
theorem session_created_on_join_not_connect (db : List Room) (st : GwState)
    (c : ConnId) (room_id user_id : String) :
    handleConnection st c = (st, []) ∧
    (∀ r, findOne db room_id = Except.ok (some r) →
      mapGet (handleJoinRoom db st c room_id user_id).1.connectedUsers c =
        some ⟨user_id, "User_" ++ user_id, some room_id⟩) ∧
    mapGet (disconnect st c).1.connectedUsers c = none := by
  refine ⟨rfl, ?_, ?_⟩
  · intro r hf
    unfold handleJoinRoom
    rw [hf]
    exact mapGet_mapSet_self _ _ _
  · show mapGet (mapDelete st.connectedUsers c) c = none
    exact mapGet_mapDelete_self _ _

theorem session_created_on_join_not_connect_witness :
    mapGet (handleJoinRoom [⟨"A", "Alg", "d", "u0", 2, 5, none⟩] GwState.init
        "c1" "A" "u1").1.connectedUsers "c1" =
      some ⟨"u1", "User_u1", some "A"⟩ :=
  (session_created_on_join_not_connect [⟨"A", "Alg", "d", "u0", 2, 5, none⟩]
    GwState.init "c1" "A" "u1").2.1 ⟨"A", "Alg", "d", "u0", 2, 5, none⟩ (by rfl)

/-- C8 counterexample: `handleGetRoomInfo` reports the persisted
`_count.users` aggregate, not the live membership size.  For a room
whose row counts 2 users while no live connection is in the room, the
`room-info` event carries user count 2, but the live membership size
is 0. -/
theorem roomInfo_count_not_live_membership :
    (handleGetRoomInfo [⟨"A", "Alg", "d", "u0", 2, 5, none⟩] GwState.init
        "c1" "A").2 =
      [⟨Target.toClient "c1", "room-info",
        Payload.roomInfo "A" "Alg" "d" "u0" 2 5⟩] ∧
    members GwState.init.socketRooms "A" = [] ∧
    ¬ (2 = (members GwState.init.socketRooms "A").length) :=
  ⟨rfl, rfl, by decide⟩

/-- C8 amended: for an existing room the requester alone receives one
`room-info` event whose summary carries the persisted row's id, name,
description, creator, `_count.users` (under the key `userCount`, not
`memberCount`, and generally different from the live membership size)
and `_count.messages`. -/
theorem getRoomInfo_reports_persisted_counts (db : List Room) (st : GwState)
    (c : ConnId) (room_id : String) (r : Room)
    (hf : findOne db room_id = Except.ok (some r)) :
    handleGetRoomInfo db st c room_id =
      (st, [⟨Target.toClient c, "room-info",
        Payload.roomInfo r.id r.name r.description r.creator
          r.countUsers r.countMessages⟩]) ∧
    recipients st (Target.toClient c) = [c] := by
  unfold handleGetRoomInfo
  rw [hf]
  exact ⟨rfl, rfl⟩

theorem getRoomInfo_reports_persisted_counts_witness :
    handleGetRoomInfo [⟨"A", "Alg", "d", "u0", 2, 5, none⟩] GwState.init
        "c1" "A" =
      (GwState.init, [⟨Target.toClient "c1", "room-info",
        Payload.roomInfo "A" "Alg" "d" "u0" 2 5⟩]) ∧
    recipients GwState.init (Target.toClient "c1") = ["c1"] :=
  getRoomInfo_reports_persisted_counts [⟨"A", "Alg", "d", "u0", 2, 5, none⟩]
    GwState.init "c1" "A" ⟨"A", "Alg", "d", "u0", 2, 5, none⟩ (by rfl)

/-- C6: a connection that disconnects while its session records room
R causes exactly one `user-left` broadcast, delivered to exactly the
remaining members of R; the connection is removed from every room's
membership and from the registry, and is never itself a recipient. -/
theorem disconnect_cleanup (st : GwState) (c : ConnId) (r : RoomId)
    (ui : UserInfo) (hget : mapGet st.connectedUsers c = some ui)
    (hroom : ui.roomId = some r) :
    (disconnect st c).2 =
      [⟨Target.broadcastToRoom c r, "user-left",
        Payload.userLeft ui.userId ui.username none⟩] ∧
    (∀ r1, ¬ c ∈ members (disconnect st c).1.socketRooms r1) ∧
    mapGet (disconnect st c).1.connectedUsers c = none ∧
    ¬ c ∈ recipients (disconnect st c).1 (Target.broadcastToRoom c r) ∧
    (∀ c1, c1 ∈ recipients (disconnect st c).1 (Target.broadcastToRoom c r) ↔
      (c1 ∈ members st.socketRooms r ∧ ¬ c1 = c)) := by
  have hred : disconnect st c =
      (⟨socketLeaveAll st.socketRooms c, mapDelete st.connectedUsers c⟩,
       [⟨Target.broadcastToRoom c r, "user-left",
         Payload.userLeft ui.userId ui.username none⟩]) := by
    unfold disconnect handleDisconnect
    simp only [hget, hroom]
  rw [hred]
  refine ⟨rfl, ?_, mapGet_mapDelete_self _ _, ?_, ?_⟩
  · intro r1 hmem
    rw [show (⟨socketLeaveAll st.socketRooms c,
        mapDelete st.connectedUsers c⟩ : GwState).socketRooms =
      socketLeaveAll st.socketRooms c from rfl] at hmem
    rw [mem_members_socketLeaveAll] at hmem
    exact hmem.2 rfl
  · intro hrec
    unfold recipients at hrec
    rw [List.mem_filter] at hrec
    simp at hrec
  · intro c1
    unfold recipients
    rw [List.mem_filter]
    rw [show (⟨socketLeaveAll st.socketRooms c,
        mapDelete st.connectedUsers c⟩ : GwState).socketRooms =
      socketLeaveAll st.socketRooms c from rfl]
    rw [mem_members_socketLeaveAll]
    simp only [decide_eq_true_eq]
    constructor
    · rintro ⟨⟨hm, hne⟩, _⟩; exact ⟨hm, hne⟩
    · rintro ⟨hm, hne⟩; exact ⟨⟨hm, hne⟩, hne⟩

theorem disconnect_cleanup_witness :
    (disconnect ⟨[("A", "b"), ("A", "c")],
        [("c", ⟨"u", "User_u", some "A"⟩)]⟩ "c").2 =
      [⟨Target.broadcastToRoom "c" "A", "user-left",
        Payload.userLeft "u" "User_u" none⟩] :=
  (disconnect_cleanup ⟨[("A", "b"), ("A", "c")],
    [("c", ⟨"u", "User_u", some "A"⟩)]⟩ "c" "A"
    ⟨"u", "User_u", some "A"⟩ (by rfl) rfl).1

/-- C5 counterexample: after "b" and "c" join room "A", two successive
leave-room calls by "c" each emit a `left-room` event delivered to "c"
and a `user-left` broadcast delivered to "b": the trace carries two of
each, not the claimed single pair. -/
theorem double_leave_emits_twice :
    (runDeliv [⟨"A", "Alg", "d", "u0", 0, 0, none⟩] GwState.init
      [Op.join "b" "A" "ub", Op.join "c" "A" "uc",
       Op.leave "c" "A" "uc", Op.leave "c" "A" "uc"]).countP
        (fun d => d.event = "left-room" ∧ "c" ∈ d.recips) = 2 ∧
    (runDeliv [⟨"A", "Alg", "d", "u0", 0, 0, none⟩] GwState.init
      [Op.join "b" "A" "ub", Op.join "c" "A" "uc",
       Op.leave "c" "A" "uc", Op.leave "c" "A" "uc"]).countP
        (fun d => d.event = "user-left" ∧ "b" ∈ d.recips) = 2 ∧
    ¬ ((2 : Nat) = 1) := by decide

/-- C5 amended: leaving a room one is not a member of (in particular
the second of two consecutive leaves) is not an error and changes no
room's membership, yet the handler still emits the `left-room` event
and the `user-left` broadcast on every call; and it is not a full
no-op on the registry: whenever the connection has a session entry its
current room is cleared — even when that entry records a different
room — and only a session already recording no room is left pointwise
unchanged. -/
theorem leave_not_member_effects (st : GwState) (c : ConnId)
    (room_id user_id : String)
    (h1 : ¬ c ∈ members st.socketRooms room_id) :
    (handleLeaveRoom st c room_id user_id).1.socketRooms = st.socketRooms ∧
    mapGet (handleLeaveRoom st c room_id user_id).1.connectedUsers c =
      (mapGet st.connectedUsers c).map
        (fun ui => ⟨ui.userId, ui.username, none⟩) ∧
    (∀ k, ¬ k = c →
      mapGet (handleLeaveRoom st c room_id user_id).1.connectedUsers k =
        mapGet st.connectedUsers k) ∧
    ((∀ ui, mapGet st.connectedUsers c = some ui → ui.roomId = none) →
      ∀ k, mapGet (handleLeaveRoom st c room_id user_id).1.connectedUsers k =
        mapGet st.connectedUsers k) ∧
    (handleLeaveRoom st c room_id user_id).2 =
      [⟨Target.toClient c, "left-room",
        Payload.leftRoom room_id user_id "Successfully left room"⟩,
       ⟨Target.broadcastToRoom c room_id, "user-left",
        Payload.userLeft user_id ("User_" ++ user_id)
          (some ("User " ++ user_id ++ " left the room"))⟩] ∧
    (∀ e, e ∈ (handleLeaveRoom st c room_id user_id).2 →
      ¬ e.event = "error") := by
  have hsr : socketLeave st.socketRooms room_id c = st.socketRooms := by
    apply List.filter_eq_self.mpr
    intro p hp
    simp only [decide_eq_true_eq]
    rintro ⟨hpr, hpc⟩
    apply h1
    rw [mem_members]
    have : p = (room_id, c) := Prod.ext hpr hpc
    rw [← this]
    exact hp
  refine ⟨hsr, ?_, ?_, ?_, rfl, ?_⟩
  · show mapGet (match mapGet st.connectedUsers c with
      | some ui => mapSet st.connectedUsers c ⟨ui.userId, ui.username, none⟩
      | none => st.connectedUsers) c =
      (mapGet st.connectedUsers c).map
        (fun ui => ⟨ui.userId, ui.username, none⟩)
    cases hm : mapGet st.connectedUsers c with
    | none => rw [hm]; rfl
    | some ui => rw [mapGet_mapSet_self]; rfl
  · intro k hk
    show mapGet (match mapGet st.connectedUsers c with
      | some ui => mapSet st.connectedUsers c ⟨ui.userId, ui.username, none⟩
      | none => st.connectedUsers) k = mapGet st.connectedUsers k
    cases hm : mapGet st.connectedUsers c with
    | none => rfl
    | some ui => exact mapGet_mapSet_ne _ _ _ _ hk
  · intro h2 k
    show mapGet (match mapGet st.connectedUsers c with
      | some ui => mapSet st.connectedUsers c ⟨ui.userId, ui.username, none⟩
      | none => st.connectedUsers) k = mapGet st.connectedUsers k
    cases hm : mapGet st.connectedUsers c with
    | none => rfl
    | some ui =>
      have hu : ui.roomId = none := h2 ui hm
      by_cases hk : k = c
      · rw [hk, mapGet_mapSet_self, hm]
        cases ui with
        | mk a b rr =>
          simp only at hu
          rw [hu]
      · exact mapGet_mapSet_ne _ _ _ _ hk
  · intro e he
    have hq : (handleLeaveRoom st c room_id user_id).2 =
      [⟨Target.toClient c, "left-room",
        Payload.leftRoom room_id user_id "Successfully left room"⟩,
       ⟨Target.broadcastToRoom c room_id, "user-left",
        Payload.userLeft user_id ("User_" ++ user_id)
          (some ("User " ++ user_id ++ " left the room"))⟩] := rfl
    rw [hq] at he
    simp only [List.mem_cons, List.not_mem_nil, or_false] at he
    rcases he with he | he
    · rw [he]; simp
    · rw [he]; simp

theorem leave_not_member_effects_witness :
    (handleLeaveRoom ⟨[("D", "c")], [("c", ⟨"u", "User_u", some "D"⟩)]⟩
        "c" "B" "u").1.socketRooms = [("D", "c")] ∧
    mapGet (handleLeaveRoom ⟨[("D", "c")],
        [("c", ⟨"u", "User_u", some "D"⟩)]⟩ "c" "B" "u").1.connectedUsers
        "c" = some ⟨"u", "User_u", none⟩ := by
  have h := leave_not_member_effects
    ⟨[("D", "c")], [("c", ⟨"u", "User_u", some "D"⟩)]⟩ "c" "B" "u" (by decide)
  exact ⟨h.1, h.2.1⟩


/-- C1 counterexample: a connection that joins room "A" and then room
"B" without leaving is a member of both rooms at once (the socket
never leaves "A"), while its registered session records only "B" — so
neither the at-most-one-room invariant nor the exact agreement between
membership and sessions holds for arbitrary interleavings. -/
theorem join_two_rooms_breaks_invariant :
    "c" ∈ members (runOps [⟨"A", "Alg", "d", "u0", 0, 0, none⟩,
        ⟨"B", "Beta", "d", "u0", 0, 0, none⟩] GwState.init
      [Op.join "c" "A" "u", Op.join "c" "B" "u"]).socketRooms "A" ∧
    "c" ∈ members (runOps [⟨"A", "Alg", "d", "u0", 0, 0, none⟩,
        ⟨"B", "Beta", "d", "u0", 0, 0, none⟩] GwState.init
      [Op.join "c" "A" "u", Op.join "c" "B" "u"]).socketRooms "B" ∧
    ¬ ("A" = "B") ∧
    registryRoom (runOps [⟨"A", "Alg", "d", "u0", 0, 0, none⟩,
        ⟨"B", "Beta", "d", "u0", 0, 0, none⟩] GwState.init
      [Op.join "c" "A" "u", Op.join "c" "B" "u"]) "c" = some "B" := by
  decide

/-- The agreement property of C1: every room's membership is exactly
the set of connections whose registered session records that room. -/
def GwInv (st : GwState) : Prop :=
  ∀ r c, c ∈ members st.socketRooms r ↔ registryRoom st c = some r

/-- The discipline under which the invariant is preserved: a
connection joins only while its session records no room, and leaves
only its current room (or leaves while recording no room). -/
def allowedOp (st : GwState) : Op → Bool
  | Op.join c _ _ => registryRoom st c = none
  | Op.leave c r _ => registryRoom st c = none || registryRoom st c = some r
  | Op.disc _ => true

def allowedOps (db : List Room) (st : GwState) : List Op → Bool
  | [] => true
  | o :: os => allowedOp st o && allowedOps db (applyOp db st o).1 os

theorem inv_step (db : List Room) (st : GwState) (o : Op)
    (hinv : GwInv st) (hall : allowedOp st o = true) :
    GwInv (applyOp db st o).1 := by
  cases o with
  | join c room_id user_id =>
    have hreg : registryRoom st c = none := by
      simpa [allowedOp] using hall
    show GwInv (handleJoinRoom db st c room_id user_id).1
    unfold handleJoinRoom
    cases hf : findOne db room_id with
    | error u => exact hinv
    | ok o =>
      cases o with
      | none => exact hinv
      | some r =>
        intro r1 c1
        show c1 ∈ members (socketJoin st.socketRooms room_id c) r1 ↔
          (mapGet (mapSet st.connectedUsers c
            ⟨user_id, "User_" ++ user_id, some room_id⟩) c1).bind
              (fun ui => ui.roomId) = some r1
        rw [mem_members_socketJoin]
        by_cases hc : c1 = c
        · rw [hc, mapGet_mapSet_self]
          have hnm : ¬ c ∈ members st.socketRooms r1 := by
            rw [hinv r1 c, hreg]; simp
          constructor
          · rintro (h | ⟨hr, _⟩)
            · exact absurd h hnm
            · rw [hr]; rfl
          · intro h
            simp only [Option.some_bind, Option.some.injEq] at h
            exact Or.inr ⟨h.symm, rfl⟩
        · rw [mapGet_mapSet_ne _ _ _ _ hc]
          constructor
          · rintro (h | ⟨_, hcc⟩)
            · exact (hinv r1 c1).mp h
            · exact absurd hcc hc
          · intro h
            exact Or.inl ((hinv r1 c1).mpr h)
  | leave c room_id user_id =>
    have hreg : registryRoom st c = none ∨ registryRoom st c = some room_id := by
      have h1 := hall
      simp only [allowedOp, Bool.or_eq_true, decide_eq_true_eq] at h1
      exact h1
    intro r1 c1
    show c1 ∈ members (socketLeave st.socketRooms room_id c) r1 ↔
      (mapGet (match mapGet st.connectedUsers c with
        | some ui => mapSet st.connectedUsers c ⟨ui.userId, ui.username, none⟩
        | none => st.connectedUsers) c1).bind (fun ui => ui.roomId) = some r1
    rw [mem_members_socketLeave]
    cases hm : mapGet st.connectedUsers c with
    | none =>
      by_cases hc : c1 = c
      · have hrn : registryRoom st c = none := by
          unfold registryRoom; rw [hm]; rfl
        have hnm : ¬ c ∈ members st.socketRooms r1 := by
          rw [hinv r1 c, hrn]; simp
        rw [hc, hm]
        simp [hnm]
      · constructor
        · rintro ⟨h, _⟩
          exact (hinv r1 c1).mp h
        · intro h
          exact ⟨(hinv r1 c1).mpr h, fun hh => hc hh.2⟩
    | some ui =>
      by_cases hc : c1 = c
      · rw [hc, mapGet_mapSet_self]
        rcases hreg with hrn | hrs
        · have hnm : ¬ c ∈ members st.socketRooms r1 := by
            rw [hinv r1 c, hrn]; simp
          simp [hnm]
        · have h1 := hinv r1 c
          rw [hrs] at h1
          simp only [Option.some.injEq] at h1
          constructor
          · rintro ⟨hmem, hne⟩
            exact absurd ⟨(h1.mp hmem).symm, rfl⟩ hne
          · intro h
            simp at h
      · rw [mapGet_mapSet_ne _ _ _ _ hc]
        constructor
        · rintro ⟨h, _⟩
          exact (hinv r1 c1).mp h
        · intro h
          exact ⟨(hinv r1 c1).mpr h, fun hh => hc hh.2⟩
  | disc c =>
    intro r1 c1
    show c1 ∈ members (socketLeaveAll st.socketRooms c) r1 ↔
      (mapGet (mapDelete st.connectedUsers c) c1).bind
        (fun ui => ui.roomId) = some r1
    rw [mem_members_socketLeaveAll]
    by_cases hc : c1 = c
    · rw [hc, mapGet_mapDelete_self]
      simp
    · rw [mapGet_mapDelete_ne _ _ _ hc]
      constructor
      · rintro ⟨h, _⟩
        exact (hinv r1 c1).mp h
      · intro h
        exact ⟨(hinv r1 c1).mpr h, hc⟩

theorem inv_runOps (db : List Room) (ops : List Op) (st : GwState)
    (hinv : GwInv st) (hall : allowedOps db st ops = true) :
    GwInv (runOps db st ops) := by
  induction ops generalizing st with
  | nil => exact hinv
  | cons o os ih =>
    simp only [allowedOps, Bool.and_eq_true] at hall
    show GwInv (runOps db (applyOp db st o).1 os)
    exact ih (applyOp db st o).1 (inv_step db st o hinv hall.1) hall.2

theorem inv_init : GwInv GwState.init := by
  intro r c
  simp [members, GwState.init, registryRoom, mapGet]

/-- C1 amended: for every interleaving of join/leave/disconnect
operations in which each connection joins only while its session
records no room and leaves only its current room, each connection
appears in at most one room's membership, and each room's membership
is exactly the set of connections whose session records that room.
(The counterexample shows the undisciplined double join violates
both.) -/
theorem membership_registry_agree (db : List Room) (st : GwState)
    (ops : List Op) (hinv : GwInv st) (hall : allowedOps db st ops = true) :
    (∀ r c, c ∈ members (runOps db st ops).socketRooms r ↔
      registryRoom (runOps db st ops) c = some r) ∧
    (∀ r1 r2 c, c ∈ members (runOps db st ops).socketRooms r1 →
      c ∈ members (runOps db st ops).socketRooms r2 → r1 = r2) := by
  have hI := inv_runOps db ops st hinv hall
  refine ⟨fun r c => hI r c, ?_⟩
  intro r1 r2 c h1 h2
  have e1 := (hI r1 c).mp h1
  have e2 := (hI r2 c).mp h2
  rw [e1] at e2
  exact Option.some.inj e2

theorem membership_registry_agree_witness :
    "b" ∈ members (runOps [⟨"A", "Alg", "d", "u0", 0, 0, none⟩]
        GwState.init
        [Op.join "b" "A" "ub", Op.join "c" "A" "uc",
         Op.leave "c" "A" "uc", Op.disc "e"]).socketRooms "A" ↔
      registryRoom (runOps [⟨"A", "Alg", "d", "u0", 0, 0, none⟩]
        GwState.init
        [Op.join "b" "A" "ub", Op.join "c" "A" "uc",
         Op.leave "c" "A" "uc", Op.disc "e"]) "b" = some "A" :=
  (membership_registry_agree [⟨"A", "Alg", "d", "u0", 0, 0, none⟩]
    GwState.init
    [Op.join "b" "A" "ub", Op.join "c" "A" "uc",
     Op.leave "c" "A" "uc", Op.disc "e"]
    inv_init (by decide)).1 "A" "b"

/-- C3 counterexample: two concurrent send-message calls to the same
room may persist in the order 0, 1 yet broadcast in the order 1, 0 —
the schedule persist 0, persist 1, emit 1, emit 0 is a valid
interleaving of the two handler bodies (each one only awaits its own
`createMessage` before emitting), so the order members observe need
not match the order the durable store accepted. -/
theorem interleaved_sends_reorder :
    runSend (initSend 2) [SendStep.persistStep 0, SendStep.persistStep 1,
      SendStep.emitStep 1, SendStep.emitStep 0] =
      some ⟨[0, 1], [1, 0], [SendPhase.emitted, SendPhase.emitted]⟩ ∧
    ¬ ([1, 0] = ([0, 1] : List Nat)) := by decide

theorem stepSend_persist_some {s s1 : SendRun} {i : Nat}
    (h : stepSend s (SendStep.persistStep i) = some s1) :
    s1.dbOrder = s.dbOrder ++ [i] ∧ s1.emitOrder = s.emitOrder ∧
    s1.phase = s.phase.set i SendPhase.persisted ∧
    s.phase[i]? = some SendPhase.idle := by
  simp only [stepSend] at h
  split at h
  · rename_i heq
    rw [Option.some.injEq] at h
    rw [← h]
    exact ⟨rfl, rfl, rfl, heq⟩
  · simp at h

theorem stepSend_emit_some {s s1 : SendRun} {i : Nat}
    (h : stepSend s (SendStep.emitStep i) = some s1) :
    s1.dbOrder = s.dbOrder ∧ s1.emitOrder = s.emitOrder ++ [i] ∧
    s1.phase = s.phase.set i SendPhase.emitted ∧
    s.phase[i]? = some SendPhase.persisted := by
  simp only [stepSend] at h
  split at h
  · rename_i heq
    rw [Option.some.injEq] at h
    rw [← h]
    exact ⟨rfl, rfl, rfl, heq⟩
  · simp at h

theorem runSend_serial (l : List Nat) (s0 s : SendRun)
    (h : runSend s0 (serialSched l) = some s) :
    s.dbOrder = s0.dbOrder ++ l ∧ s.emitOrder = s0.emitOrder ++ l := by
  induction l generalizing s0 with
  | nil =>
    simp only [serialSched, List.map_nil, List.flatten_nil] at h
    simp only [runSend, Option.some.injEq] at h
    rw [← h]
    simp
  | cons i l ih =>
    have hser : serialSched (i :: l) =
        SendStep.persistStep i :: SendStep.emitStep i :: serialSched l := by
      simp [serialSched]
    rw [hser] at h
    simp only [runSend] at h
    cases hp : stepSend s0 (SendStep.persistStep i) with
    | none => rw [hp] at h; simp at h
    | some s1 =>
      rw [hp] at h
      simp only [Option.some_bind] at h
      cases he : stepSend s1 (SendStep.emitStep i) with
      | none => rw [he] at h; simp at h
      | some s2 =>
        rw [he] at h
        simp only [Option.some_bind] at h
        have h2 := ih s2 h
        obtain ⟨hd1, he1, _, _⟩ := stepSend_persist_some hp
        obtain ⟨hd2, he2, _, _⟩ := stepSend_emit_some he
        constructor
        · rw [h2.1, hd2, hd1]
          simp
        · rw [h2.2, he2, he1]
          simp

/-- Obligations every reachable state of the send interleaving model
satisfies: whatever was emitted was persisted first. -/
def SendObl (s : SendRun) : Prop :=
  (∀ i, i ∈ s.emitOrder → i ∈ s.dbOrder) ∧
  (∀ i, (s.phase[i]? = some SendPhase.persisted ∨
    s.phase[i]? = some SendPhase.emitted) → i ∈ s.dbOrder)

theorem sendObl_step (s s1 : SendRun) (t : SendStep)
    (hI : SendObl s) (h : stepSend s t = some s1) : SendObl s1 := by
  cases t with
  | persistStep i =>
    obtain ⟨hd, he, hp, _⟩ := stepSend_persist_some h
    constructor
    · intro j hj
      rw [he] at hj
      rw [hd]
      exact List.mem_append_left _ (hI.1 j hj)
    · intro j hph
      rw [hp] at hph
      by_cases hij : j = i
      · rw [hd, hij]
        exact List.mem_append_right _ (List.mem_singleton.mpr rfl)
      · rw [List.getElem?_set_ne (fun hh => hij hh.symm)] at hph
        rw [hd]
        exact List.mem_append_left _ (hI.2 j hph)
  | emitStep i =>
    obtain ⟨hd, he, hp, hpre⟩ := stepSend_emit_some h
    have hidb : i ∈ s.dbOrder := hI.2 i (Or.inl hpre)
    constructor
    · intro j hj
      rw [he, List.mem_append] at hj
      rw [hd]
      rcases hj with hj | hj
      · exact hI.1 j hj
      · rw [List.mem_singleton] at hj
        rw [hj]
        exact hidb
    · intro j hph
      rw [hp] at hph
      by_cases hij : j = i
      · rw [hd, hij]
        exact hidb
      · rw [List.getElem?_set_ne (fun hh => hij hh.symm)] at hph
        rw [hd]
        exact hI.2 j hph

theorem sendObl_run (sched : List SendStep) (s s1 : SendRun)
    (hI : SendObl s) (h : runSend s sched = some s1) : SendObl s1 := by
  induction sched generalizing s with
  | nil =>
    simp only [runSend, Option.some.injEq] at h
    rw [← h]
    exact hI
  | cons t ts ih =>
    simp only [runSend] at h
    cases hp : stepSend s t with
    | none => rw [hp] at h; simp at h
    | some s2 =>
      rw [hp] at h
      simp only [Option.some_bind] at h
      exact ih s2 (sendObl_step s s2 t hI hp) h

theorem sendObl_init (n : Nat) : SendObl (initSend n) := by
  constructor
  · intro i hi
    simp [initSend] at hi
  · intro i hph
    have hrep : (initSend n).phase = List.replicate n SendPhase.idle := rfl
    rw [hrep, List.getElem?_replicate] at hph
    rcases hph with hph | hph <;>
    · split at hph
      · simp at hph
      · simp at hph

/-- C3 amended: all members observe the `new-message` events of one
room in the single emission order, and a message is never emitted
before its own durable write is acknowledged; when the send-message
calls do not interleave (each persists and emits before the next
starts), that emission order equals the durable store's accept order —
but the counterexample shows it can differ under interleaving. -/
theorem sends_order_serial_matches_db (n : Nat) (l : List Nat)
    (sched : List SendStep) (s t : SendRun)
    (hserial : runSend (initSend n) (serialSched l) = some s)
    (hany : runSend (initSend n) sched = some t) :
    s.emitOrder = s.dbOrder ∧
    (∀ i, i ∈ t.emitOrder → i ∈ t.dbOrder) := by
  constructor
  · obtain ⟨hd, he⟩ := runSend_serial l (initSend n) s hserial
    rw [he, hd]
    rfl
  · exact (sendObl_run sched (initSend n) t (sendObl_init n) hany).1

theorem sends_order_serial_matches_db_witness :
    (⟨[0, 1], [0, 1], [SendPhase.emitted, SendPhase.emitted]⟩ :
      SendRun).emitOrder =
      (⟨[0, 1], [0, 1], [SendPhase.emitted, SendPhase.emitted]⟩ :
        SendRun).dbOrder :=
  (sends_order_serial_matches_db 2 [0, 1] (serialSched [0, 1])
    ⟨[0, 1], [0, 1], [SendPhase.emitted, SendPhase.emitted]⟩
    ⟨[0, 1], [0, 1], [SendPhase.emitted, SendPhase.emitted]⟩
    (by decide) (by decide)).1
